import Mathlib

/-!
Verification of the prediction-market intelligence backend.

This file gives a shallow embedding, in Lean 4, of the numeric and
state-manipulating core of the backend: the quote normalizers of the
ingestor (`aggregator.js`), the batch writer retry logic
(`supabaseClient.js`), the arbitrage scanner (`arbitrage_hunter.js`),
the relationship classifier post-processing (`agent.js`), and the
scenario engine graph traversal (`scenario_engine.js`).

Numbers are modelled as rationals; JavaScript `Math.round` is modelled
as `jsRound`, `Number.prototype.toFixed(n)` followed by `parseFloat` as
`round4` / `round3` / `round1`; `parseFloat` of a possibly-missing field
is modelled with `Option ℚ` (a `none` stands for a missing or
unparseable field, which JavaScript turns into `NaN` and the normalizer
code then maps to its documented default).  `Math.log10` is
transcendental, so the confidence-score function takes the logarithm as
an explicit function parameter; every theorem about it holds for an
arbitrary such parameter.
-/

namespace PredictionMarkets

/-- JavaScript `Math.round`: round half toward positive infinity. -/
def jsRound (q : ℚ) : ℤ := ⌊q + 1 / 2⌋

/-- JavaScript `parseFloat(x.toFixed(4))`: round to four decimal places. -/
def round4 (q : ℚ) : ℚ := (jsRound (q * 10000) : ℚ) / 10000

/-- JavaScript `parseFloat(x.toFixed(3))`: round to three decimal places. -/
def round3 (q : ℚ) : ℚ := (jsRound (q * 1000) : ℚ) / 1000

/-!
## Quote ingestor (`aggregator.js`)
-/

/-- `normProb` on an already-parsed number (aggregator.js lines 70-76):
values above 1 look like cents and are scaled by 1/100, everything is
clamped into `[0, 1]`. -/
def normProbNum (n : ℚ) : ℚ :=
  if 1 < n then min (n / 100) 1 else max 0 (min n 1)

/-- `normProb(raw)`: `parseFloat` of a missing or unparseable raw value is
`NaN`, which the source maps to 0. -/
def normProb : Option ℚ → ℚ
  | none => 0
  | some n => normProbNum n

/-- `calculateUnifiedConfidence(depth, spreadPct)` (aggregator.js lines
99-109).  The base-10 logarithm is passed in as `log10`. -/
def calculateUnifiedConfidence (log10 : ℚ → ℚ) (depth : ℚ) (spreadPct : Option ℚ) : ℤ :=
  let depthScore : ℚ := if 0 < depth then min (log10 depth * 10) 60 else 0
  let spreadScore : ℚ :=
    match spreadPct with
    | some s => max 0 (40 - s * 2)
    | none => 20
  jsRound (min (max (depthScore + spreadScore) 0) 100)

/-- The fields of a normalized quote that the verified claims talk about. -/
structure Quote where
  price : ℚ
  probability_pct : ℚ
  liquidity_score : ℤ
  liquidity_depth_usd : ℚ
  bid_ask_spread_pct : Option ℚ
  volume_24h : Option ℚ
  confidence_flag : Option String
  deriving Repr, DecidableEq

/-- Microstructure cache entry written by the Polymarket book handler
(aggregator.js lines 455-462). -/
structure PolyBookState where
  depth : ℚ
  bestBid : ℚ
  bestAsk : ℚ
  deriving Repr, DecidableEq

/-- The numeric fields of a Polymarket market-channel event used by
`normalizePolymarketTrade`. -/
structure PolyMsg where
  best_bid : Option ℚ
  best_ask : Option ℚ
  price : Option ℚ
  size : Option ℚ
  deriving Repr, DecidableEq

/-- `normalizePolymarketTrade(msg)` (aggregator.js lines 209-249), with the
microstructure cache entry for the asset passed explicitly (`none` when the
cache has no entry for the asset). -/
def normalizePolymarketTrade (log10 : ℚ → ℚ) (msg : PolyMsg)
    (state : Option PolyBookState) : Quote :=
  let bid := msg.best_bid.getD 0
  let ask := msg.best_ask.getD 0
  let mid := if bid ≠ 0 ∧ ask ≠ 0 then (bid + ask) / 2 else 0
  let price := normProb (if mid ≠ 0 then some mid else msg.price)
  let depth := match state with | some st => st.depth | none => 0
  let cachedBid := match state with | some st => st.bestBid | none => 0
  let cachedAsk := match state with | some st => st.bestAsk | none => 0
  let spreadPct :=
    if cachedBid ≠ 0 ∧ cachedAsk ≠ 0 then
      some ((cachedAsk - cachedBid) / ((cachedAsk + cachedBid) / 2) * 100)
    else none
  let score := calculateUnifiedConfidence log10 depth spreadPct
  { price := price
    probability_pct := price * 100
    liquidity_score := score
    liquidity_depth_usd := depth
    bid_ask_spread_pct := spreadPct
    volume_24h := none
    confidence_flag := if score < 50 then some "LOW_CONFIDENCE" else none }

/-- Microstructure cache entry for a Kalshi market, written by the ticker
handler (aggregator.js line 339). -/
structure KalshiState where
  yesBid : ℚ
  yesAsk : ℚ
  spread : ℚ
  volume : ℚ
  deriving Repr, DecidableEq

/-- The numeric fields of a Kalshi ticker message. -/
structure KalshiTickerMsg where
  yes_bid : Option ℚ
  yes_ask : Option ℚ
  volume : Option ℚ
  deriving Repr, DecidableEq

/-- The numeric fields of a Kalshi trade message. `takerYes` is true when
`taker_side` is "yes" (also the default when the field is absent). -/
structure KalshiTradeMsg where
  yes_price : Option ℚ
  no_price : Option ℚ
  count : Option ℚ
  takerYes : Bool
  deriving Repr, DecidableEq

/-- `mid` in `normalizeKalshiTicker`: the JS
`yesBid && yesAsk ? (yesBid + yesAsk) / 2 : yesBid || yesAsk`. -/
def kalshiTickerMid (msg : KalshiTickerMsg) : ℚ :=
  if msg.yes_bid.getD 0 ≠ 0 ∧ msg.yes_ask.getD 0 ≠ 0 then
    (msg.yes_bid.getD 0 + msg.yes_ask.getD 0) / 2
  else if msg.yes_bid.getD 0 ≠ 0 then msg.yes_bid.getD 0 else msg.yes_ask.getD 0

/-- `spread` in `normalizeKalshiTicker`: `Math.max(yesAsk − yesBid, 0)`. -/
def kalshiTickerSpread (msg : KalshiTickerMsg) : ℚ :=
  max (msg.yes_ask.getD 0 - msg.yes_bid.getD 0) 0

/-- `bid_ask_spread_pct` in `normalizeKalshiTicker`. -/
def kalshiTickerSpreadPct (msg : KalshiTickerMsg) : Option ℚ :=
  if 0 < kalshiTickerMid msg then
    some (kalshiTickerSpread msg / kalshiTickerMid msg * 100)
  else none

/-- The cache entry stored by `normalizeKalshiTicker` for later trade
messages: `spread = max(yesAsk − yesBid, 0)`. -/
def kalshiTickerState (msg : KalshiTickerMsg) : KalshiState :=
  { yesBid := msg.yes_bid.getD 0
    yesAsk := msg.yes_ask.getD 0
    spread := kalshiTickerSpread msg
    volume := msg.volume.getD 0 }

/-- `cachedMid` in `normalizeKalshiTrade`:
`state.yesBid && state.yesAsk ? (state.yesBid + state.yesAsk) / 2 : 0`. -/
def kalshiCachedMid : Option KalshiState → ℚ
  | some st => if st.yesBid ≠ 0 ∧ st.yesAsk ≠ 0 then (st.yesBid + st.yesAsk) / 2 else 0
  | none => 0

/-- `bid_ask_spread_pct` in `normalizeKalshiTrade`: defined when the cache
has a spread and the cached mid is positive. -/
def kalshiTradeSpreadPct (state : Option KalshiState) : Option ℚ :=
  match state with
  | some st =>
    if 0 < kalshiCachedMid (some st) then
      some (st.spread / kalshiCachedMid (some st) * 100)
    else none
  | none => none

/-- `normalizeKalshiTrade(data)` (aggregator.js lines 271-309), with the
cached ticker state passed explicitly. -/
def normalizeKalshiTrade (log10 : ℚ → ℚ) (msg : KalshiTradeMsg)
    (state : Option KalshiState) : Quote :=
  let rawPrice := if msg.takerYes then msg.yes_price else msg.no_price
  let spreadPct := kalshiTradeSpreadPct state
  let score := calculateUnifiedConfidence log10 0 spreadPct
  { price := normProb rawPrice
    probability_pct := normProb rawPrice * 100
    liquidity_score := score
    liquidity_depth_usd := 0
    bid_ask_spread_pct := spreadPct
    volume_24h := state.map (fun st => st.volume)
    confidence_flag := if score < 50 then some "LOW_CONFIDENCE" else none }

/-- `normalizeKalshiTicker(data)` (aggregator.js lines 328-363). -/
def normalizeKalshiTicker (log10 : ℚ → ℚ) (msg : KalshiTickerMsg) : Quote :=
  let mid := kalshiTickerMid msg
  let spreadPct := kalshiTickerSpreadPct msg
  let score := calculateUnifiedConfidence log10 0 spreadPct
  { price := normProbNum mid
    probability_pct := normProbNum mid * 100
    liquidity_score := score
    liquidity_depth_usd := 0
    bid_ask_spread_pct := spreadPct
    volume_24h := some (msg.volume.getD 0)
    confidence_flag := if score < 50 then some "LOW_CONFIDENCE" else none }

/-!
## Arbitrage scanner (`arbitrage_hunter.js`, demo-fallback variant)
-/

/-- `SPREAD_THRESHOLD`: minimum probability spread (percentage points). -/
def SPREAD_THRESHOLD : ℚ := 3

/-- `LIQUIDITY_THRESHOLD`: minimum liquidity depth (USD) per side. -/
def LIQUIDITY_THRESHOLD : ℚ := 500

/-- `DEMO_LIQUIDITY_USD`: synthetic liquidity assigned to demo markets. -/
def DEMO_LIQUIDITY_USD : ℚ := 1000

/-- The `DEMO_PROBS` table of synthetic probabilities. -/
def demoProbs : List (String × ℚ) :=
  [("demo_fed_hold_v1", 82),
   ("demo_fed_hold_v2", 79),
   ("demo_house_dem_v1", 34),
   ("demo_house_dem_v2", 35),
   ("demo_wti_above_70", 68),
   ("demo_wti_at_or_below_70", 32),
   ("demo_unemp_above_43", 55),
   ("demo_unemp_at_or_below_43", 45),
   ("demo_fed_hike_march", 12),
   ("demo_gdp_below_20", 84),
   ("demo_cpi_above_fed_target", 78)]

/-- `DEMO_PROBS[marketKey]`, `none` when the key is not in the table. -/
def demoProb (marketKey : String) : Option ℚ := demoProbs.lookup marketKey

/-- A latest live entry from `market_signals` as the hunter reads it
(`probability_pct` may be null in the database row; `liquidity_depth_usd`
was already defaulted to 0 by `fetchLatestSignals`). -/
structure LiveSignal where
  probability_pct : Option ℚ
  liquidity_depth_usd : ℚ
  deriving Repr, DecidableEq

/-- The resolved signal for one side of a pair. -/
structure ResolvedSignal where
  probability_pct : ℚ
  liquidity_depth_usd : ℚ
  isDemo : Bool
  deriving Repr, DecidableEq

/-- `resolveSignal(marketKey, metaMap, signalMap)`: live data first, then
the demo table, else `none`. -/
def resolveSignal (marketKey : String) (metaMap : String → Option String)
    (signalMap : String → Option LiveSignal) : Option ResolvedSignal :=
  match (metaMap marketKey).bind signalMap with
  | some live =>
    match live.probability_pct with
    | some p => some ⟨p, live.liquidity_depth_usd, false⟩
    | none => (demoProb marketKey).map (fun p => ⟨p, DEMO_LIQUIDITY_USD, true⟩)
  | none => (demoProb marketKey).map (fun p => ⟨p, DEMO_LIQUIDITY_USD, true⟩)

/-- An `arbitrage_alerts` row as built by `insertAlert`. -/
structure AlertRec where
  market_pair : String
  spread : ℚ
  potential_profit_pct : ℚ
  status : String
  deriving Repr, DecidableEq

/-- The per-pair body of `runScan` step 5: resolve both sides, skip if either
is unresolvable, emit an alert when the spread and both liquidity thresholds
pass.  `potential_profit_pct` equals the spread; `insertAlert` stores both
rounded to three decimals. -/
def evalPair (metaMap : String → Option String)
    (signalMap : String → Option LiveSignal) (a b : String) : Option AlertRec :=
  match resolveSignal a metaMap signalMap, resolveSignal b metaMap signalMap with
  | some sigA, some sigB =>
    let spread := |sigA.probability_pct - sigB.probability_pct|
    let isDemo := sigA.isDemo || sigB.isDemo
    if SPREAD_THRESHOLD < spread ∧ LIQUIDITY_THRESHOLD < sigA.liquidity_depth_usd ∧
        LIQUIDITY_THRESHOLD < sigB.liquidity_depth_usd then
      some { market_pair := a ++ " ↔ " ++ b
             spread := round3 spread
             potential_profit_pct := round3 spread
             status := if isDemo then "SIMULATED_EXECUTION" else "ALERT" }
    else none
  | _, _ => none

/-- One scan cycle over the equivalent pairs: the list of alerts emitted. -/
def runScanAlerts (metaMap : String → Option String)
    (signalMap : String → Option LiveSignal)
    (pairs : List (String × String)) : List AlertRec :=
  pairs.filterMap (fun p => evalPair metaMap signalMap p.1 p.2)

/-!
## Relationship classifier post-processing (`agent.js`)
-/

/-- `ARBITRAGE_THRESHOLD_PCT`: the arbitrage-flag threshold. -/
def ARBITRAGE_THRESHOLD_PCT : ℚ := 10

/-- `DIVERGENCE_THRESHOLD_PCT`: the venue-divergence (risk-alert) threshold. -/
def DIVERGENCE_THRESHOLD_PCT : ℚ := 5

/-- The structured classification returned by the analyst model, after JSON
parsing succeeded. -/
structure ParsedClassification where
  relationship_type : String
  confidence_score : ℚ
  logic_justification : String
  impact_direction : Option String
  correlation_strength : Option String
  logical_layer : Option String
  vantage_insight : Option String
  deriving Repr, DecidableEq

/-- A `market_relationships` row as built by `classifyPair`. -/
structure RelRecord where
  market_key_a : String
  market_key_b : String
  relationship_type : String
  confidence_score : ℚ
  logic_justification : String
  arbitrage_flag : Option String
  risk_alert : Option String
  probability_a : Option ℚ
  probability_b : Option ℚ
  probability_spread : Option ℚ
  impact_direction : String
  correlation_strength : String
  logical_layer : String
  vantage_insight : Option String
  deriving Repr, DecidableEq

/-- The extra GDP-mismatch sentence appended for the hard-coded demo pair.
The numeric renderings (`toFixed` in the source) are abstracted to exact
rational renderings. -/
def gdpNote (keyA keyB : String) (spread : ℚ) : String :=
  if (keyA = "gdp_q1_2026" ∧ keyB = "demo_gdp_below_20") ∨
      (keyB = "gdp_q1_2026" ∧ keyA = "demo_gdp_below_20") then
    " GDP Mismatch: The live market and the demo complement are both tracking the same BEA Q1 2026 GDP release. With a " ++
      toString spread ++ "% spread between them, this represents a market inefficiency."
  else ""

/-- The concrete spread note appended to the justification of an equivalent
pair whose spread exceeds the arbitrage threshold. -/
def equivArbNote (keyA keyB : String) (spread probA probB : ℚ) : String :=
  " [ARBITRAGE DETECTED: " ++ toString spread ++ "% spread — " ++ keyA ++ " at " ++
    toString probA ++ "% vs " ++ toString probB ++ "% for " ++ keyB ++
    ". These equivalent markets should converge; the gap is a pricing inefficiency.]" ++
    gdpNote keyA keyB spread

/-- The concrete note appended to the justification of a mutually exclusive
pair whose probability sum deviates from 100 by more than the threshold. -/
def mutexArbNote (pairSum spread : ℚ) : String :=
  " [ARBITRAGE DETECTED: Probabilities sum to " ++ toString pairSum ++
    "% (should be ~100%). The " ++ toString spread ++
    "% excess is a potential arbitrage opportunity.]"

/-- The derived tags computed by `classifyPair` after parsing (agent.js lines
316-369): `(arbitrage_flag, risk_alert, probability_spread, justification)`. -/
def derivedTags (keyA keyB : String) (relationshipType : String)
    (logicJustification : String) (probA probB : Option ℚ) :
    Option String × Option String × Option ℚ × String :=
  match probA, probB with
  | some a, some b =>
    if relationshipType = "equivalent" then
      let spread := |a - b|
      let risk :=
        if DIVERGENCE_THRESHOLD_PCT < spread then
          some "VENUE_DIVERGENCE: Potential Arbitrage"
        else none
      if ARBITRAGE_THRESHOLD_PCT < spread then
        (some "HIGH_VALUE_ARBITRAGE_OPPORTUNITY", risk, some spread,
          logicJustification ++ equivArbNote keyA keyB spread a b)
      else (none, risk, some spread, logicJustification)
    else if relationshipType = "mutually_exclusive" then
      let pairSum := a + b
      let spread := |pairSum - 100|
      if ARBITRAGE_THRESHOLD_PCT < spread then
        (some "HIGH_VALUE_ARBITRAGE_OPPORTUNITY", none, some spread,
          logicJustification ++ mutexArbNote pairSum spread)
      else (none, none, some spread, logicJustification)
    else (none, none, none, logicJustification)
  | _, _ => (none, none, none, logicJustification)

/-- `[a, b].sort()`: canonical (alphabetical) ordering of the pair key. -/
def canonicalPair (a b : String) : String × String :=
  if a ≤ b then (a, b) else (b, a)

/-- The post-parsing part of `classifyPair` (agent.js lines 305-392): derived
tags, justification extension and canonical key ordering. -/
def classifyPairPost (keyA keyB : String) (parsed : ParsedClassification)
    (probA probB : Option ℚ) : RelRecord :=
  let tags := derivedTags keyA keyB parsed.relationship_type
    parsed.logic_justification probA probB
  let sorted := canonicalPair keyA keyB
  { market_key_a := sorted.1
    market_key_b := sorted.2
    relationship_type := parsed.relationship_type
    confidence_score := parsed.confidence_score
    logic_justification := tags.2.2.2
    arbitrage_flag := tags.1
    risk_alert := tags.2.1
    probability_a := probA
    probability_b := probB
    probability_spread := tags.2.2.1
    impact_direction := parsed.impact_direction.getD "Neutral"
    correlation_strength := parsed.correlation_strength.getD "Medium"
    logical_layer := parsed.logical_layer.getD "Financial"
    vantage_insight := parsed.vantage_insight }

/-- The `market_relationships` table, addressed by the ordered pair key, as
`storeRelationship` upserts into it. -/
def RelStore : Type := String × String → Option RelRecord

/-- The empty relationship table. -/
def emptyRelStore : RelStore := fun _ => none

/-- `storeRelationship(rel)`: upsert on conflict target
`(market_key_a, market_key_b)`. -/
def upsertRel (store : RelStore) (r : RelRecord) : RelStore :=
  fun k => if k = (r.market_key_a, r.market_key_b) then some r else store k

/-- Upsert a whole classifier run, in order. -/
def upsertAll (store : RelStore) (rs : List RelRecord) : RelStore :=
  rs.foldl upsertRel store

/-- The record that "wins" for key `k` in a run, starting from `acc`:
last write wins. -/
def lastKeyedFrom (acc : Option RelRecord) (rs : List RelRecord)
    (k : String × String) : Option RelRecord :=
  rs.foldl (fun a r => if (r.market_key_a, r.market_key_b) = k then some r else a) acc

/-!
## Scenario engine (`scenario_engine.js`)
-/

/-- `MAX_DEPTH`: 1 = first-order only, 2 = first + second-order. -/
def MAX_DEPTH : ℕ := 2

/-- `MIN_PATH_CONF`: prune paths whose cumulative confidence falls below
this bound (0.05). -/
def MIN_PATH_CONF : ℚ := 1 / 20

/-- A propagation direction, `'UP' | 'DOWN'`. -/
inductive Dir where
  | up : Dir
  | down : Dir
  deriving Repr, DecidableEq

/-- The `flip` closure inside `propagateDirection`. -/
def flipDir : Dir → Dir
  | .up => .down
  | .down => .up

/-- `propagateDirection(currentDir, relationshipType, impactDirection)`
(scenario_engine.js lines 263-281). -/
def propagateDirection (currentDir : Dir) (relationshipType : String)
    (impactDirection : String) : Dir :=
  if relationshipType = "equivalent" ∨ relationshipType = "implied" ∨
      relationshipType = "implied_conditional" then currentDir
  else if relationshipType = "mutually_exclusive" then flipDir currentDir
  else if relationshipType = "correlated" then
    if impactDirection = "Negative" then flipDir currentDir else currentDir
  else currentDir

/-- The fields of a `market_relationships` row read by the traversal.
`confidence_score` is nullable in the row (the traversal defaults it
to 0.5). -/
structure GraphEdge where
  market_key_a : String
  market_key_b : String
  relationship_type : String
  confidence_score : Option ℚ
  impact_direction : String
  deriving Repr, DecidableEq

/-- A BFS queue entry of `traverseGraph`. -/
structure QEntry where
  marketKey : String
  direction : Dir
  depth : ℕ
  path : List String
  pathConfidence : ℚ
  deriving Repr, DecidableEq

/-- An impact record pushed by `traverseGraph`. -/
structure Impact where
  market_key : String
  order : ℕ
  relationship_type : String
  direction : Dir
  confidence_score : ℚ
  edge_confidence : ℚ
  path : List String
  deriving Repr, DecidableEq

/-- The inner `for (const rel of edges)` loop of `traverseGraph`: processes
the edges incident to the dequeued entry `e`, threading the visited set, the
impact list and the list of entries to be appended to the queue. -/
def processEdges (e : QEntry) : List GraphEdge → List String → List Impact →
    List QEntry → List String × List Impact × List QEntry
  | [], visited, impacts, nq => (visited, impacts, nq)
  | rel :: es, visited, impacts, nq =>
    let neighbor :=
      if rel.market_key_a = e.marketKey then rel.market_key_b else rel.market_key_a
    if neighbor ∈ visited then processEdges e es visited impacts nq
    else
      let visited1 := visited ++ [neighbor]
      let edgeConfidence := rel.confidence_score.getD (1 / 2)
      let newPathConf := round4 (e.pathConfidence * edgeConfidence)
      if newPathConf < MIN_PATH_CONF then processEdges e es visited1 impacts nq
      else
        let newDir := propagateDirection e.direction rel.relationship_type rel.impact_direction
        let newPath := e.path ++ [neighbor]
        let imp : Impact :=
          ⟨neighbor, e.depth + 1, rel.relationship_type, newDir, newPathConf,
            edgeConfidence, newPath⟩
        let entry : QEntry := ⟨neighbor, newDir, e.depth + 1, newPath, newPathConf⟩
        processEdges e es visited1 (impacts ++ [imp]) (nq ++ [entry])

/-- The `while (queue.length > 0)` loop of `traverseGraph`, with explicit
fuel (the loop terminates because the visited set grows; the fuel chosen in
`traverseGraph` is large enough for the loop to drain the queue). -/
def traverseAux (rels : List GraphEdge) : ℕ → List QEntry → List String →
    List Impact → List Impact
  | 0, _, _, impacts => impacts
  | _ + 1, [], _, impacts => impacts
  | fuel + 1, e :: rest, visited, impacts =>
    if MAX_DEPTH ≤ e.depth then traverseAux rels fuel rest visited impacts
    else
      let edges := rels.filter
        (fun r => r.market_key_a = e.marketKey ∨ r.market_key_b = e.marketKey)
      let step := processEdges e edges visited impacts []
      traverseAux rels fuel (rest ++ step.2.2) step.1 step.2.1

/-- `traverseGraph(targetMarket, initialDir, relationships)` (scenario_engine.js
lines 297-377): bounded BFS with visited guard, multiplicative confidence
decay rounded to four decimals at each step, pruning below `MIN_PATH_CONF`,
and a final sort by cumulative confidence descending. -/
def traverseGraph (targetMarket : String) (initialDir : Dir)
    (rels : List GraphEdge) : List Impact :=
  let start : QEntry := ⟨targetMarket, initialDir, 0, [targetMarket], 1⟩
  let impacts := traverseAux rels (2 * rels.length + 2) [start] [targetMarket] []
  impacts.insertionSort (fun a b => b.confidence_score ≤ a.confidence_score)

/-- The cumulative confidence actually computed along a path: the product of
the edge confidences, rounded to four decimal places after each
multiplication, starting from 1.0. -/
def roundedProd (cs : List ℚ) : ℚ :=
  cs.foldl (fun acc c => round4 (acc * c)) 1

/-!
## Batch writer (`supabaseClient.js`)
-/

/-- The observable state of a `BatchInserter`. -/
structure BIState (α : Type) where
  queue : List α
  batchSize : ℕ
  totalInserted : ℕ
  totalErrors : ℕ
  deriving Repr, DecidableEq

/-- One `flush()` call whose insert fails (supabaseClient.js lines 94-134):
the queue is drained atomically, the error counter grows by the batch size,
and the drained batch is prepended back only when the *remaining* queue is
shorter than `batchSize * 10` (after an atomic drain the remaining queue is
empty, so the guard compares `0 < batchSize * 10`). -/
def failedFlush {α : Type} (s : BIState α) : BIState α :=
  match s.queue with
  | [] => s
  | q@(_ :: _) =>
    let batch := q
    let remaining : List α := []
    let s1 : BIState α :=
      { s with queue := remaining, totalErrors := s.totalErrors + batch.length }
    if remaining.length < s.batchSize * 10 then { s1 with queue := batch ++ remaining }
    else s1

/-- `enqueue(record)` during an outage: push, then flush (failing) once the
queue reaches the batch size. -/
def enqueueFF {α : Type} (r : α) (s : BIState α) : BIState α :=
  let s1 := { s with queue := s.queue ++ [r] }
  if s1.batchSize ≤ s1.queue.length then failedFlush s1 else s1

/-- An event in a batch-writer history in which every insert fails. -/
inductive BIEvent (α : Type) where
  | enq : α → BIEvent α
  | flushFail : BIEvent α
  deriving Repr, DecidableEq

/-- Apply one event. -/
def biStep {α : Type} (s : BIState α) : BIEvent α → BIState α
  | .enq r => enqueueFF r s
  | .flushFail => failedFlush s

/-- Run a history of events. -/
def biRun {α : Type} (events : List (BIEvent α)) (s : BIState α) : BIState α :=
  events.foldl biStep s

/-!
## Scenario report persistence and the scenario endpoint
(`scenario_engine.js` saveReport, `api.js` POST /api/scenario)
-/

/-- The lifecycle-relevant fields of a `scenario_reports` row. -/
structure ScenarioReportRow where
  query : String
  trigger_market : String
  narrative : String
  status : String
  deriving Repr, DecidableEq

/-- The outcome of one `predictScenario(userQuery)` run: either the pipeline
reaches `saveReport` with a target market and a narrative, or some step
(scenario parsing, narrative generation, a table read) throws with a
message. -/
inductive ScenarioOutcome where
  | completed : String → String → ScenarioOutcome
  | failed : String → ScenarioOutcome
  deriving Repr, DecidableEq

/-- The report rows written to `scenario_reports` during one run: `saveReport`
performs a single insert with `status = 'completed'` at the very end of a
successful run; a failed run writes nothing. -/
def scenarioDbWrites (userQuery : String) : ScenarioOutcome → List ScenarioReportRow
  | .completed targetMarket narrative =>
    [{ query := userQuery, trigger_market := targetMarket,
       narrative := narrative, status := "completed" }]
  | .failed _ => []

/-- An HTTP response of the scenario endpoint. -/
structure HttpScenarioResponse where
  statusCode : ℕ
  reportRow : Option ScenarioReportRow
  errorMsg : Option String
  deriving Repr, DecidableEq

/-- `POST /api/scenario` (api.js lines 272-291): on success respond 200 with
the report, on any thrown error respond 500 with the error message. -/
def scenarioEndpoint (userQuery : String) : ScenarioOutcome → HttpScenarioResponse
  | .completed targetMarket narrative =>
    { statusCode := 200
      reportRow := some { query := userQuery, trigger_market := targetMarket,
                          narrative := narrative, status := "completed" }
      errorMsg := none }
  | .failed e => { statusCode := 500, reportRow := none, errorMsg := some e }

/-!
## Helper lemmas
-/

theorem jsRound_nonneg {q : ℚ} (h : 0 ≤ q) : 0 ≤ jsRound q := by
  unfold jsRound
  exact Int.floor_nonneg.mpr (by linarith)

theorem jsRound_le {q : ℚ} {n : ℤ} (h : q ≤ (n : ℚ)) : jsRound q ≤ n := by
  unfold jsRound
  have h2 : q + 1 / 2 < ((n + 1 : ℤ) : ℚ) := by push_cast; linarith
  have h3 := Int.floor_lt.mpr h2
  omega

theorem normProbNum_nonneg (n : ℚ) : 0 ≤ normProbNum n := by
  unfold normProbNum
  split
  · rename_i h
    exact le_min (by linarith) (by norm_num)
  · exact le_max_left 0 _

theorem normProbNum_le_one (n : ℚ) : normProbNum n ≤ 1 := by
  unfold normProbNum
  split
  · exact min_le_right _ _
  · exact max_le (by norm_num) (min_le_right _ _)

theorem normProb_nonneg (o : Option ℚ) : 0 ≤ normProb o := by
  cases o with
  | none => simp [normProb]
  | some n => exact normProbNum_nonneg n

theorem normProb_le_one (o : Option ℚ) : normProb o ≤ 1 := by
  cases o with
  | none => simp [normProb]
  | some n => exact normProbNum_le_one n

theorem calcConf_nonneg (log10 : ℚ → ℚ) (depth : ℚ) (spreadPct : Option ℚ) :
    0 ≤ calculateUnifiedConfidence log10 depth spreadPct := by
  unfold calculateUnifiedConfidence
  exact jsRound_nonneg (le_min (le_max_right _ 0) (by norm_num))

theorem calcConf_le_100 (log10 : ℚ → ℚ) (depth : ℚ) (spreadPct : Option ℚ) :
    calculateUnifiedConfidence log10 depth spreadPct ≤ 100 := by
  unfold calculateUnifiedConfidence
  exact jsRound_le (by exact_mod_cast min_le_right _ (100 : ℚ))

theorem calcConf_zero_depth_le_40 (log10 : ℚ → ℚ) (spreadPct : Option ℚ)
    (hs : ∀ v ∈ spreadPct, 0 ≤ v) : calculateUnifiedConfidence log10 0 spreadPct ≤ 40 := by
  cases spreadPct with
  | none =>
    unfold calculateUnifiedConfidence
    apply jsRound_le
    norm_num
  | some v =>
    have hv : 0 ≤ v := hs v rfl
    unfold calculateUnifiedConfidence
    apply jsRound_le
    push_cast
    simp only [lt_self_iff_false, if_false, zero_add]
    have h1 : max 0 (40 - v * 2) ≤ 40 := max_le (by norm_num) (by linarith)
    have h2 : max (max 0 (40 - v * 2)) 0 ≤ 40 := max_le h1 (by norm_num)
    exact le_trans (min_le_left _ _) h2
theorem kalshiTradeSpreadPct_nonneg (state : Option KalshiState)
    (h : ∀ s ∈ state, 0 ≤ s.spread) : ∀ v ∈ kalshiTradeSpreadPct state, 0 ≤ v := by
  cases state with
  | none => intro v hv; simp [kalshiTradeSpreadPct] at hv
  | some st =>
    intro v hv
    simp only [kalshiTradeSpreadPct, Option.mem_def] at hv
    split at hv
    · rename_i hmid
      simp only [Option.some.injEq] at hv
      subst hv
      exact mul_nonneg (div_nonneg (h st rfl) (le_of_lt hmid)) (by norm_num)
    · exact absurd hv (by simp)

theorem kalshiTickerSpreadPct_nonneg (msg : KalshiTickerMsg) :
    ∀ v ∈ kalshiTickerSpreadPct msg, 0 ≤ v := by
  intro v hv
  simp only [kalshiTickerSpreadPct, Option.mem_def] at hv
  split at hv
  · rename_i hmid
    simp only [Option.some.injEq] at hv
    subst hv
    exact mul_nonneg (div_nonneg (le_max_right _ _) (le_of_lt hmid)) (by norm_num)
  · exact absurd hv (by simp)

/-!
## Claim C1
-/

/-- C1.  For every quote emitted by the normalizers, `0 ≤ price ≤ 1` and
`probability_pct = price × 100`; `normProb` divides any raw value strictly
greater than 1 by 100 before clamping (so 1.5 becomes 0.015), and the
boundary values 0.0 and 1.0 pass through unchanged. -/
theorem quote_price_invariant :
    (∀ (log10 : ℚ → ℚ) (msg : PolyMsg) (state : Option PolyBookState),
      0 ≤ (normalizePolymarketTrade log10 msg state).price ∧
      (normalizePolymarketTrade log10 msg state).price ≤ 1 ∧
      (normalizePolymarketTrade log10 msg state).probability_pct =
        (normalizePolymarketTrade log10 msg state).price * 100) ∧
    (∀ (log10 : ℚ → ℚ) (msg : KalshiTradeMsg) (state : Option KalshiState),
      0 ≤ (normalizeKalshiTrade log10 msg state).price ∧
      (normalizeKalshiTrade log10 msg state).price ≤ 1 ∧
      (normalizeKalshiTrade log10 msg state).probability_pct =
        (normalizeKalshiTrade log10 msg state).price * 100) ∧
    (∀ (log10 : ℚ → ℚ) (msg : KalshiTickerMsg),
      0 ≤ (normalizeKalshiTicker log10 msg).price ∧
      (normalizeKalshiTicker log10 msg).price ≤ 1 ∧
      (normalizeKalshiTicker log10 msg).probability_pct =
        (normalizeKalshiTicker log10 msg).price * 100) ∧
    (∀ n : ℚ, 1 < n → normProbNum n = min (n / 100) 1) ∧
    normProbNum (3 / 2) = 3 / 200 ∧ normProbNum 0 = 0 ∧ normProbNum 1 = 1 := by
  refine ⟨?_, ?_, ?_, ?_, ?_, ?_, ?_⟩
  · intro log10 msg state
    refine ⟨?_, ?_, rfl⟩
    · exact normProb_nonneg _
    · exact normProb_le_one _
  · intro log10 msg state
    refine ⟨?_, ?_, rfl⟩
    · exact normProb_nonneg _
    · exact normProb_le_one _
  · intro log10 msg
    refine ⟨?_, ?_, rfl⟩
    · exact normProbNum_nonneg _
    · exact normProbNum_le_one _
  · intro n hn
    simp [normProbNum, hn]
  · norm_num [normProbNum]
  · norm_num [normProbNum]
  · norm_num [normProbNum]

/-- Witness for C1: the percent-like input 1.5 is rescaled by `normProbNum`. -/
theorem quote_price_invariant_witness :
    normProbNum (3 / 2) = min (3 / 2 / 100) 1 :=
  quote_price_invariant.2.2.2.1 (3 / 2) (by norm_num)

/-!
## Claim C2
-/

/-- C2.  The unified confidence score always lies in `[0, 100]`; when the
depth is not positive the score does not depend on the logarithm at all (the
depth component is 0); a missing spread contributes the neutral 20 points
(the same as a known spread of 10%); and each normalizer sets
`confidence_flag` to the low-confidence marker if and only if the rounded
score is strictly below 50. -/
theorem confidence_score_contract :
    (∀ (log10 : ℚ → ℚ) (depth : ℚ) (spreadPct : Option ℚ),
      0 ≤ calculateUnifiedConfidence log10 depth spreadPct ∧
      calculateUnifiedConfidence log10 depth spreadPct ≤ 100) ∧
    (∀ (log10 log10' : ℚ → ℚ) (depth : ℚ) (spreadPct : Option ℚ), depth ≤ 0 →
      calculateUnifiedConfidence log10 depth spreadPct =
        calculateUnifiedConfidence log10' depth spreadPct) ∧
    (∀ (log10 : ℚ → ℚ) (depth : ℚ),
      calculateUnifiedConfidence log10 depth none =
        calculateUnifiedConfidence log10 depth (some 10)) ∧
    (∀ (log10 : ℚ → ℚ) (msg : PolyMsg) (state : Option PolyBookState),
      ((normalizePolymarketTrade log10 msg state).confidence_flag =
          some "LOW_CONFIDENCE" ↔
        (normalizePolymarketTrade log10 msg state).liquidity_score < 50)) ∧
    (∀ (log10 : ℚ → ℚ) (msg : KalshiTradeMsg) (state : Option KalshiState),
      ((normalizeKalshiTrade log10 msg state).confidence_flag =
          some "LOW_CONFIDENCE" ↔
        (normalizeKalshiTrade log10 msg state).liquidity_score < 50)) ∧
    (∀ (log10 : ℚ → ℚ) (msg : KalshiTickerMsg),
      ((normalizeKalshiTicker log10 msg).confidence_flag = some "LOW_CONFIDENCE" ↔
        (normalizeKalshiTicker log10 msg).liquidity_score < 50)) := by
  refine ⟨fun l d s => ⟨calcConf_nonneg l d s, calcConf_le_100 l d s⟩, ?_, ?_, ?_, ?_, ?_⟩
  · intro l l' d s hd
    unfold calculateUnifiedConfidence
    have : ¬ (0 < d) := not_lt.mpr hd
    simp [this]
  · intro l d
    unfold calculateUnifiedConfidence
    norm_num
  · intro l msg st
    simp only [normalizePolymarketTrade]
    split <;> simp_all
  · intro l msg st
    simp only [normalizeKalshiTrade]
    split <;> simp_all
  · intro l msg
    simp only [normalizeKalshiTicker]
    split <;> simp_all

/-- Witness for C2: with nonpositive depth the score is the same under two
different logarithm functions. -/
theorem confidence_score_contract_witness :
    calculateUnifiedConfidence (fun q => q) 0 (some 4) =
      calculateUnifiedConfidence (fun _ => 99) 0 (some 4) :=
  confidence_score_contract.2.1 (fun q => q) (fun _ => 99) 0 (some 4) (by norm_num)

/-!
## Claim C10
-/

/-- C10.  Every quote produced from a Kalshi trade or ticker message has
`liquidity_depth_usd = 0`, a confidence score of at most 40, and therefore
always carries the low-confidence flag — for every message and every cache
state reachable from ticker messages. -/
theorem kalshi_quotes_always_low_confidence :
    (∀ (log10 : ℚ → ℚ) (msg : KalshiTradeMsg) (src : Option KalshiTickerMsg),
      (normalizeKalshiTrade log10 msg (src.map kalshiTickerState)).liquidity_depth_usd = 0 ∧
      (normalizeKalshiTrade log10 msg (src.map kalshiTickerState)).liquidity_score ≤ 40 ∧
      (normalizeKalshiTrade log10 msg (src.map kalshiTickerState)).confidence_flag =
        some "LOW_CONFIDENCE") ∧
    (∀ (log10 : ℚ → ℚ) (msg : KalshiTickerMsg),
      (normalizeKalshiTicker log10 msg).liquidity_depth_usd = 0 ∧
      (normalizeKalshiTicker log10 msg).liquidity_score ≤ 40 ∧
      (normalizeKalshiTicker log10 msg).confidence_flag = some "LOW_CONFIDENCE") := by
  constructor
  · intro l msg src
    have hscore : (normalizeKalshiTrade l msg (src.map kalshiTickerState)).liquidity_score ≤ 40 := by
      simp only [normalizeKalshiTrade]
      apply calcConf_zero_depth_le_40
      apply kalshiTradeSpreadPct_nonneg
      intro s hs
      cases src with
      | none => simp at hs
      | some t =>
        simp only [Option.map_some', Option.mem_def, Option.some.injEq] at hs
        subst hs
        simp only [kalshiTickerState]
        exact le_max_right _ _
    have h50 : (normalizeKalshiTrade l msg (src.map kalshiTickerState)).liquidity_score < 50 := by
      omega
    refine ⟨rfl, hscore, ?_⟩
    have hflag : (normalizeKalshiTrade l msg (src.map kalshiTickerState)).confidence_flag =
        (if (normalizeKalshiTrade l msg (src.map kalshiTickerState)).liquidity_score < 50 then
          some "LOW_CONFIDENCE" else none) := rfl
    rw [hflag, if_pos h50]
  · intro l msg
    have hscore : (normalizeKalshiTicker l msg).liquidity_score ≤ 40 := by
      simp only [normalizeKalshiTicker]
      exact calcConf_zero_depth_le_40 l _ (kalshiTickerSpreadPct_nonneg msg)
    have h50 : (normalizeKalshiTicker l msg).liquidity_score < 50 := by omega
    refine ⟨rfl, hscore, ?_⟩
    have hflag : (normalizeKalshiTicker l msg).confidence_flag =
        (if (normalizeKalshiTicker l msg).liquidity_score < 50 then
          some "LOW_CONFIDENCE" else none) := rfl
    rw [hflag, if_pos h50]

/-!
## Claim C6
-/

/-- C6.  The direction-propagation function outputs the incoming direction
across `equivalent`, `implied` and `implied_conditional` edges, flips it
across `mutually_exclusive` edges, and across `correlated` edges flips it
exactly when the impact direction is the negative one; hence propagating
twice across `mutually_exclusive` is the identity and propagating any
number of times across `equivalent`/`implied` edges is the identity. -/
theorem direction_propagation_algebra :
    (∀ (d : Dir) (i : String),
      propagateDirection d "equivalent" i = d ∧
      propagateDirection d "implied" i = d ∧
      propagateDirection d "implied_conditional" i = d ∧
      propagateDirection d "mutually_exclusive" i = flipDir d ∧
      propagateDirection d "correlated" i = (if i = "Negative" then flipDir d else d)) ∧
    (∀ (d : Dir) (i i' : String),
      propagateDirection (propagateDirection d "mutually_exclusive" i)
        "mutually_exclusive" i' = d) ∧
    (∀ (d : Dir) (t i : String) (n : ℕ),
      (t = "equivalent" ∨ t = "implied" ∨ t = "implied_conditional") →
      (fun x => propagateDirection x t i)^[n] d = d) := by
  refine ⟨?_, ?_, ?_⟩
  · intro d i
    refine ⟨by simp [propagateDirection], by simp [propagateDirection],
      by simp [propagateDirection], by simp [propagateDirection], ?_⟩
    simp [propagateDirection]
  · intro d i i'
    cases d <;> simp [propagateDirection, flipDir]
  · intro d t i n ht
    induction n with
    | zero => simp
    | succ n ih =>
      rw [Function.iterate_succ_apply', ih]
      rcases ht with h | h | h <;> subst h <;> simp [propagateDirection]

/-- Witness for C6: three propagation steps across an `implied` edge leave
the direction unchanged. -/
theorem direction_propagation_algebra_witness :
    (fun x => propagateDirection x "implied" "Negative")^[3] Dir.up = Dir.up :=
  direction_propagation_algebra.2.2 Dir.up "implied" "Negative" 3 (Or.inr (Or.inl rfl))

/-!
## Claim C4
-/

theorem string_eq_empty_of_length_eq_zero (s : String) (h : s.length = 0) : s = "" := by
  cases s with
  | mk data =>
    cases data with
    | nil => rfl
    | cons c cs => simp [String.length] at h

theorem equivArbNote_ne_empty (kA kB : String) (s a b : ℚ) :
    equivArbNote kA kB s a b ≠ "" := by
  intro h
  have h2 := congrArg String.length h
  simp only [equivArbNote, String.length_append] at h2
  have hA : (" [ARBITRAGE DETECTED: " : String).length = 22 := by decide
  have h0 : ("" : String).length = 0 := rfl
  rw [hA, h0] at h2
  omega

theorem mutexArbNote_ne_empty (pairSum s : ℚ) : mutexArbNote pairSum s ≠ "" := by
  intro h
  have h2 := congrArg String.length h
  simp only [mutexArbNote, String.length_append] at h2
  have hA : (" [ARBITRAGE DETECTED: Probabilities sum to " : String).length = 43 := by decide
  have h0 : ("" : String).length = 0 := rfl
  rw [hA, h0] at h2
  omega

/-- C4.  Classifier post-processing: for an `equivalent` pair with both
probabilities present, `probability_spread = |a − b|`, the risk alert fires
exactly above 5 percentage points and the arbitrage flag with an extended
justification exactly above 10; for a `mutually_exclusive` pair,
`probability_spread = |a + b − 100|` with the flag and extension above 10;
otherwise all derived fields stay null and the justification is unchanged. -/
theorem classifier_derived_tags :
    (∀ (keyA keyB : String) (parsed : ParsedClassification) (a b : ℚ),
      parsed.relationship_type = "equivalent" →
      ((classifyPairPost keyA keyB parsed (some a) (some b)).probability_spread =
          some |a - b| ∧
        ((classifyPairPost keyA keyB parsed (some a) (some b)).risk_alert =
            some "VENUE_DIVERGENCE: Potential Arbitrage" ↔ 5 < |a - b|) ∧
        ((classifyPairPost keyA keyB parsed (some a) (some b)).arbitrage_flag =
            some "HIGH_VALUE_ARBITRAGE_OPPORTUNITY" ↔ 10 < |a - b|) ∧
        (10 < |a - b| →
          (classifyPairPost keyA keyB parsed (some a) (some b)).logic_justification =
            parsed.logic_justification ++ equivArbNote keyA keyB |a - b| a b ∧
          equivArbNote keyA keyB |a - b| a b ≠ "") ∧
        (¬ 10 < |a - b| →
          (classifyPairPost keyA keyB parsed (some a) (some b)).logic_justification =
            parsed.logic_justification))) ∧
    (∀ (keyA keyB : String) (parsed : ParsedClassification) (a b : ℚ),
      parsed.relationship_type = "mutually_exclusive" →
      ((classifyPairPost keyA keyB parsed (some a) (some b)).probability_spread =
          some |a + b - 100| ∧
        (classifyPairPost keyA keyB parsed (some a) (some b)).risk_alert = none ∧
        ((classifyPairPost keyA keyB parsed (some a) (some b)).arbitrage_flag =
            some "HIGH_VALUE_ARBITRAGE_OPPORTUNITY" ↔ 10 < |a + b - 100|) ∧
        (10 < |a + b - 100| →
          (classifyPairPost keyA keyB parsed (some a) (some b)).logic_justification =
            parsed.logic_justification ++ mutexArbNote (a + b) |a + b - 100| ∧
          mutexArbNote (a + b) |a + b - 100| ≠ "") ∧
        (¬ 10 < |a + b - 100| →
          (classifyPairPost keyA keyB parsed (some a) (some b)).logic_justification =
            parsed.logic_justification))) ∧
    (∀ (keyA keyB : String) (parsed : ParsedClassification) (a b : ℚ),
      parsed.relationship_type ≠ "equivalent" →
      parsed.relationship_type ≠ "mutually_exclusive" →
      ((classifyPairPost keyA keyB parsed (some a) (some b)).probability_spread = none ∧
        (classifyPairPost keyA keyB parsed (some a) (some b)).arbitrage_flag = none ∧
        (classifyPairPost keyA keyB parsed (some a) (some b)).risk_alert = none ∧
        (classifyPairPost keyA keyB parsed (some a) (some b)).logic_justification =
          parsed.logic_justification)) ∧
    (∀ (keyA keyB : String) (parsed : ParsedClassification) (pA pB : Option ℚ),
      pA = none ∨ pB = none →
      ((classifyPairPost keyA keyB parsed pA pB).probability_spread = none ∧
        (classifyPairPost keyA keyB parsed pA pB).arbitrage_flag = none ∧
        (classifyPairPost keyA keyB parsed pA pB).risk_alert = none ∧
        (classifyPairPost keyA keyB parsed pA pB).logic_justification =
          parsed.logic_justification)) := by
  refine ⟨?_, ?_, ?_, ?_⟩
  · intro keyA keyB parsed a b htype
    by_cases h10 : (10 : ℚ) < |a - b|
    · have h5 : (5 : ℚ) < |a - b| := by linarith
      refine ⟨?_, ?_, ?_, fun _ => ⟨?_, equivArbNote_ne_empty keyA keyB |a - b| a b⟩,
        fun hc => absurd h10 hc⟩ <;>
        simp [classifyPairPost, derivedTags, htype,
          ARBITRAGE_THRESHOLD_PCT, DIVERGENCE_THRESHOLD_PCT, h10, h5]
    · by_cases h5 : (5 : ℚ) < |a - b|
      · refine ⟨?_, ?_, ?_, fun hc => absurd hc h10, fun _ => ?_⟩ <;>
          simp [classifyPairPost, derivedTags, htype,
            ARBITRAGE_THRESHOLD_PCT, DIVERGENCE_THRESHOLD_PCT, h10, h5]
      · refine ⟨?_, ?_, ?_, fun hc => absurd hc h10, fun _ => ?_⟩ <;>
          simp [classifyPairPost, derivedTags, htype,
            ARBITRAGE_THRESHOLD_PCT, DIVERGENCE_THRESHOLD_PCT, h10, h5]
  · intro keyA keyB parsed a b htype
    have hne : parsed.relationship_type ≠ "equivalent" := by
      rw [htype]; decide
    by_cases h10 : (10 : ℚ) < |a + b - 100|
    · refine ⟨?_, ?_, ?_, fun _ => ⟨?_, mutexArbNote_ne_empty (a + b) |a + b - 100|⟩,
        fun hc => absurd h10 hc⟩ <;>
        simp [classifyPairPost, derivedTags, htype, hne,
          ARBITRAGE_THRESHOLD_PCT, h10]
    · refine ⟨?_, ?_, ?_, fun hc => absurd hc h10, fun _ => ?_⟩ <;>
        simp [classifyPairPost, derivedTags, htype, hne,
          ARBITRAGE_THRESHOLD_PCT, h10]
  · intro keyA keyB parsed a b h1 h2
    refine ⟨?_, ?_, ?_, ?_⟩ <;> simp [classifyPairPost, derivedTags, h1, h2]
  · intro keyA keyB parsed pA pB h
    rcases h with h | h
    · subst h; cases pB <;> simp [classifyPairPost, derivedTags]
    · subst h; cases pA <;> simp [classifyPairPost, derivedTags]

/-- Witness for C4: the demo consistency pair (90, 20) classified as
equivalent gets spread 70, the divergence alert and the arbitrage flag. -/
theorem classifier_derived_tags_witness :
    (classifyPairPost "m_a" "m_b"
        ⟨"equivalent", 9 / 10, "same event", none, none, none, none⟩
        (some 90) (some 20)).probability_spread = some |(90 : ℚ) - 20| ∧
    ((classifyPairPost "m_a" "m_b"
        ⟨"equivalent", 9 / 10, "same event", none, none, none, none⟩
        (some 90) (some 20)).risk_alert =
      some "VENUE_DIVERGENCE: Potential Arbitrage" ↔ (5 : ℚ) < |(90 : ℚ) - 20|) ∧
    ((classifyPairPost "m_a" "m_b"
        ⟨"equivalent", 9 / 10, "same event", none, none, none, none⟩
        (some 90) (some 20)).arbitrage_flag =
      some "HIGH_VALUE_ARBITRAGE_OPPORTUNITY" ↔ (10 : ℚ) < |(90 : ℚ) - 20|) := by
  have h := classifier_derived_tags.1 "m_a" "m_b"
    ⟨"equivalent", 9 / 10, "same event", none, none, none, none⟩ 90 20 rfl
  exact ⟨h.1, h.2.1, h.2.2.1⟩

/-!
## Claim C3
-/

/-- C3.  In a scan cycle each side resolves to its latest live quote with the
demo table as fallback, a pair is skipped exactly when a side has neither
live nor demo data, an alert is emitted if and only if the spread exceeds
3 percentage points and both sides have depth above $500, and the alert
status is the simulated marker exactly when a side resolved via the demo
fallback. -/
theorem arbitrage_scan_contract :
    (∀ (k : String) (m : String → Option String) (s : String → Option LiveSignal),
      (resolveSignal k m s = none ↔
        ((m k).bind s).bind (fun l => l.probability_pct) = none ∧ demoProb k = none)) ∧
    (∀ (k : String) (m : String → Option String) (s : String → Option LiveSignal)
        (p : ℚ) (l : LiveSignal), (m k).bind s = some l → l.probability_pct = some p →
      resolveSignal k m s = some ⟨p, l.liquidity_depth_usd, false⟩) ∧
    (∀ (k : String) (m : String → Option String) (s : String → Option LiveSignal),
      ((m k).bind s).bind (fun l => l.probability_pct) = none →
      resolveSignal k m s =
        (demoProb k).map (fun p => ⟨p, DEMO_LIQUIDITY_USD, true⟩)) ∧
    (∀ (m : String → Option String) (s : String → Option LiveSignal) (a b : String),
      (evalPair m s a b).isSome ↔
        ∃ sigA sigB, resolveSignal a m s = some sigA ∧ resolveSignal b m s = some sigB ∧
          SPREAD_THRESHOLD < |sigA.probability_pct - sigB.probability_pct| ∧
          LIQUIDITY_THRESHOLD < sigA.liquidity_depth_usd ∧
          LIQUIDITY_THRESHOLD < sigB.liquidity_depth_usd) ∧
    (∀ (m : String → Option String) (s : String → Option LiveSignal) (a b : String)
        (sigA sigB : ResolvedSignal) (alert : AlertRec),
      resolveSignal a m s = some sigA → resolveSignal b m s = some sigB →
      evalPair m s a b = some alert →
      ((alert.status = "SIMULATED_EXECUTION" ↔ (sigA.isDemo || sigB.isDemo) = true) ∧
        alert.spread = round3 |sigA.probability_pct - sigB.probability_pct| ∧
        alert.potential_profit_pct = alert.spread)) := by
  refine ⟨?_, ?_, ?_, ?_, ?_⟩
  · intro k m s
    unfold resolveSignal
    cases hls : (m k).bind s with
    | none =>
      cases hd : demoProb k <;> simp [hd]
    | some l =>
      cases hp : l.probability_pct with
      | none =>
        cases hd : demoProb k <;> simp [hp, hd]
      | some p => simp [hp]
  · intro k m s p l hls hp
    unfold resolveSignal
    rw [hls]
    simp [hp]
  · intro k m s h
    unfold resolveSignal
    cases hls : (m k).bind s with
    | none => rfl
    | some l =>
      rw [hls] at h
      simp only [Option.some_bind] at h
      cases hp : l.probability_pct with
      | none => simp [hp]
      | some p => rw [hp] at h; simp at h
  · intro m s a b
    unfold evalPair
    cases hA : resolveSignal a m s with
    | none => simp
    | some sigA =>
      cases hB : resolveSignal b m s with
      | none => simp
      | some sigB =>
        dsimp only
        by_cases hcond : SPREAD_THRESHOLD < |sigA.probability_pct - sigB.probability_pct| ∧
            LIQUIDITY_THRESHOLD < sigA.liquidity_depth_usd ∧
            LIQUIDITY_THRESHOLD < sigB.liquidity_depth_usd
        · rw [if_pos hcond]
          simp only [Option.isSome_some, true_iff]
          exact ⟨sigA, sigB, rfl, rfl, hcond.1, hcond.2.1, hcond.2.2⟩
        · rw [if_neg hcond]
          simp only [Option.isSome_none, Bool.false_eq_true, false_iff]
          rintro ⟨sA, sB, hsA, hsB, h1, h2, h3⟩
          rw [Option.some.injEq] at hsA hsB
          subst hsA; subst hsB
          exact absurd ⟨h1, h2, h3⟩ hcond
  · intro m s a b sigA sigB alert hA hB halert
    unfold evalPair at halert
    rw [hA, hB] at halert
    dsimp only at halert
    split at halert
    · rename_i hcond
      rw [Option.some.injEq] at halert
      subst halert
      refine ⟨?_, rfl, rfl⟩
      by_cases hd : (sigA.isDemo || sigB.isDemo) = true
      · simp [hd]
      · rw [if_neg hd]
        simp only [hd]
        simp
    · simp at halert

/-- Witness for C3: a market with no live signal resolves through the demo
table as a simulated signal. -/
theorem arbitrage_scan_contract_witness :
    resolveSignal "demo_fed_hold_v1" (fun _ => none) (fun _ => none) =
      (demoProb "demo_fed_hold_v1").map
        (fun p => ⟨p, DEMO_LIQUIDITY_USD, true⟩) :=
  arbitrage_scan_contract.2.2.1 "demo_fed_hold_v1" (fun _ => none) (fun _ => none) rfl

/-!
## Claim C7
-/

/-- C7.  The retry cap of the batch writer is ineffective: a failed flush
always requeues the entire drained batch whenever the batch size is at least
one, because the cap compares the length of the just-drained (empty) queue,
so nothing is ever dropped; with batch size 1, eleven enqueues under a
persistent store outage leave 11 records retained, exceeding the claimed
`10 × batch size` bound. -/
theorem batch_writer_retry_cap_ineffective :
    (∀ (α : Type) (s : BIState α), 1 ≤ s.batchSize →
      (failedFlush s).queue = s.queue ∧
      (failedFlush s).totalErrors = s.totalErrors + s.queue.length) ∧
    (biRun (List.replicate 11 (BIEvent.enq (0 : ℕ)))
        { queue := [], batchSize := 1, totalInserted := 0, totalErrors := 0 }).queue.length =
      11 ∧
    ¬ (biRun (List.replicate 11 (BIEvent.enq (0 : ℕ)))
        { queue := [], batchSize := 1, totalInserted := 0, totalErrors := 0 }).queue.length ≤
      10 * 1 := by
  refine ⟨?_, by decide, by decide⟩
  intro α s hb
  cases s with
  | mk q n i e =>
    cases q with
    | nil => exact ⟨rfl, by simp [failedFlush]⟩
    | cons r rs =>
      have hpos : (0 : ℕ) < n * 10 := by
        simp only at hb
        omega
      constructor
      · simp [failedFlush, hpos]
      · simp [failedFlush, hpos]

/-- Witness for C7: a failed flush on a queue of three records with batch
size one retains all three records. -/
theorem batch_writer_retry_cap_ineffective_witness :
    (failedFlush (⟨[1, 2, 3], 1, 0, 0⟩ : BIState ℕ)).queue = [1, 2, 3] :=
  (batch_writer_retry_cap_ineffective.1 ℕ ⟨[1, 2, 3], 1, 0, 0⟩ (by decide)).1

/-!
## Claim C9
-/

/-- Counterexample for C9: at the concrete failing run, no report row at all
is written (in particular none with status `pending` or `failed`), refuting
the claimed pending/processing/failed lifecycle. -/
theorem scenario_report_lifecycle_counterexample :
    ¬ (∀ (q : String) (o : ScenarioOutcome),
        (∃ row ∈ scenarioDbWrites q o, row.status = "pending") ∧
        (∀ e, o = ScenarioOutcome.failed e →
          ∃ row ∈ scenarioDbWrites q o, row.status = "failed")) := by
  intro h
  have h1 := (h "CPI comes in hot" (ScenarioOutcome.failed "parse error")).1
  simp [scenarioDbWrites] at h1

/-- C9 (amended).  A run writes at most one report row; every written row has
status `completed`; a successful run writes exactly that one row and the
endpoint answers 200 with it; a failed run writes no row at all and the
endpoint answers 500 carrying the error message — it always responds, never
with a `failed` report row. -/
theorem scenario_report_lifecycle :
    ∀ (q : String) (o : ScenarioOutcome),
      (scenarioDbWrites q o).length ≤ 1 ∧
      (∀ row ∈ scenarioDbWrites q o, row.status = "completed") ∧
      (∀ t n, o = ScenarioOutcome.completed t n →
        scenarioDbWrites q o =
          [{ query := q, trigger_market := t, narrative := n, status := "completed" }] ∧
        (scenarioEndpoint q o).statusCode = 200 ∧
        (scenarioEndpoint q o).reportRow =
          some { query := q, trigger_market := t, narrative := n, status := "completed" }) ∧
      (∀ e, o = ScenarioOutcome.failed e →
        scenarioDbWrites q o = [] ∧
        (scenarioEndpoint q o).statusCode = 500 ∧
        (scenarioEndpoint q o).errorMsg = some e ∧
        (scenarioEndpoint q o).reportRow = none) := by
  intro q o
  cases o with
  | completed t n =>
    refine ⟨by simp [scenarioDbWrites], ?_, ?_, ?_⟩
    · intro row hrow
      simp [scenarioDbWrites] at hrow
      rw [hrow]
    · intro t' n' h
      injection h with h1 h2
      subst h1; subst h2
      exact ⟨rfl, rfl, rfl⟩
    · intro e h
      exact absurd h (by simp)
  | failed e =>
    refine ⟨by simp [scenarioDbWrites], ?_, ?_, ?_⟩
    · intro row hrow
      simp [scenarioDbWrites] at hrow
    · intro t' n' h
      exact absurd h (by simp)
    · intro e' h
      injection h with h1
      subst h1
      exact ⟨rfl, rfl, rfl, rfl⟩

/-- Witness for C9 (amended): the concrete failed run writes nothing and the
endpoint responds 500 with the message. -/
theorem scenario_report_lifecycle_witness :
    scenarioDbWrites "CPI comes in hot" (ScenarioOutcome.failed "parse error") = [] ∧
    (scenarioEndpoint "CPI comes in hot"
        (ScenarioOutcome.failed "parse error")).statusCode = 500 ∧
    (scenarioEndpoint "CPI comes in hot"
        (ScenarioOutcome.failed "parse error")).errorMsg = some "parse error" ∧
    (scenarioEndpoint "CPI comes in hot"
        (ScenarioOutcome.failed "parse error")).reportRow = none :=
  (scenario_report_lifecycle "CPI comes in hot"
    (ScenarioOutcome.failed "parse error")).2.2.2 "parse error" rfl

/-!
## Claim C8
-/

theorem canonicalPair_lt (a b : String) (h : a ≠ b) :
    (canonicalPair a b).1 < (canonicalPair a b).2 := by
  unfold canonicalPair
  split
  · rename_i hle
    exact lt_of_le_of_ne hle h
  · rename_i hnle
    exact lt_of_not_le hnle

theorem lastKeyedFrom_shift (rs : List RelRecord) :
    ∀ (acc : Option RelRecord) (k : String × String),
      lastKeyedFrom acc rs k =
        match lastKeyedFrom none rs k with
        | some r => some r
        | none => acc := by
  induction rs with
  | nil => intro acc k; rfl
  | cons x xs ih =>
    intro acc k
    by_cases hx : (x.market_key_a, x.market_key_b) = k
    · have h1 : lastKeyedFrom acc (x :: xs) k = lastKeyedFrom (some x) xs k := by
        have : lastKeyedFrom acc (x :: xs) k =
            lastKeyedFrom (if (x.market_key_a, x.market_key_b) = k then some x else acc) xs k := rfl
        rw [this, if_pos hx]
      have h2 : lastKeyedFrom none (x :: xs) k = lastKeyedFrom (some x) xs k := by
        have : lastKeyedFrom none (x :: xs) k =
            lastKeyedFrom (if (x.market_key_a, x.market_key_b) = k then some x else none) xs k := rfl
        rw [this, if_pos hx]
      rw [h1, h2, ih (some x) k]
      cases lastKeyedFrom none xs k <;> rfl
    · have h1 : lastKeyedFrom acc (x :: xs) k = lastKeyedFrom acc xs k := by
        have : lastKeyedFrom acc (x :: xs) k =
            lastKeyedFrom (if (x.market_key_a, x.market_key_b) = k then some x else acc) xs k := rfl
        rw [this, if_neg hx]
      have h2 : lastKeyedFrom none (x :: xs) k = lastKeyedFrom none xs k := by
        have : lastKeyedFrom none (x :: xs) k =
            lastKeyedFrom (if (x.market_key_a, x.market_key_b) = k then some x else none) xs k := rfl
        rw [this, if_neg hx]
      rw [h1, h2, ih acc k]

theorem upsertAll_apply (rs : List RelRecord) :
    ∀ (store : RelStore) (k : String × String),
      upsertAll store rs k =
        match lastKeyedFrom none rs k with
        | some r => some r
        | none => store k := by
  induction rs with
  | nil => intro store k; rfl
  | cons x xs ih =>
    intro store k
    have h1 : upsertAll store (x :: xs) k = upsertAll (upsertRel store x) xs k := rfl
    rw [h1, ih (upsertRel store x) k]
    by_cases hx : (x.market_key_a, x.market_key_b) = k
    · have h2 : lastKeyedFrom none (x :: xs) k = lastKeyedFrom (some x) xs k := by
        have : lastKeyedFrom none (x :: xs) k =
            lastKeyedFrom (if (x.market_key_a, x.market_key_b) = k then some x else none) xs k := rfl
        rw [this, if_pos hx]
      rw [h2, lastKeyedFrom_shift xs (some x) k]
      cases lastKeyedFrom none xs k with
      | some r => rfl
      | none =>
        show upsertRel store x k = some x
        unfold upsertRel
        rw [if_pos hx.symm]
    · have h2 : lastKeyedFrom none (x :: xs) k = lastKeyedFrom none xs k := by
        have : lastKeyedFrom none (x :: xs) k =
            lastKeyedFrom (if (x.market_key_a, x.market_key_b) = k then some x else none) xs k := rfl
        rw [this, if_neg hx]
      rw [h2]
      cases lastKeyedFrom none xs k with
      | some r => rfl
      | none =>
        show upsertRel store x k = store k
        unfold upsertRel
        rw [if_neg (fun hh => hx hh.symm)]

theorem lastKeyedFrom_none_spec (rs : List RelRecord) :
    ∀ (acc : Option RelRecord) (k : String × String) (r : RelRecord),
      lastKeyedFrom acc rs k = some r →
      ((r.market_key_a, r.market_key_b) = k ∧ r ∈ rs) ∨ acc = some r := by
  induction rs with
  | nil => intro acc k r h; exact Or.inr h
  | cons x xs ih =>
    intro acc k r h
    have h2 := ih (if (x.market_key_a, x.market_key_b) = k then some x else acc) k r h
    rcases h2 with ⟨hk, hmem⟩ | hacc
    · exact Or.inl ⟨hk, List.mem_cons_of_mem x hmem⟩
    · by_cases hx : (x.market_key_a, x.market_key_b) = k
      · rw [if_pos hx] at hacc
        rw [Option.some.injEq] at hacc
        subst hacc
        exact Or.inl ⟨hx, List.mem_cons_self x xs⟩
      · rw [if_neg hx] at hacc
        exact Or.inr hacc

/-- C8.  Every relationship row built by the classifier has
`market_key_a < market_key_b` lexicographically (for distinct input keys);
re-running the same upsert sequence leaves the table unchanged; and in a
table built from canonically ordered rows, every present key is strictly
ordered, so each unordered pair has at most one row. -/
theorem classifier_canonical_and_idempotent :
    (∀ (keyA keyB : String) (parsed : ParsedClassification) (pA pB : Option ℚ),
      keyA ≠ keyB →
      (classifyPairPost keyA keyB parsed pA pB).market_key_a <
        (classifyPairPost keyA keyB parsed pA pB).market_key_b) ∧
    (∀ (store : RelStore) (rs : List RelRecord),
      upsertAll (upsertAll store rs) rs = upsertAll store rs) ∧
    (∀ (rs : List RelRecord), (∀ r ∈ rs, r.market_key_a < r.market_key_b) →
      (∀ a b : String, (upsertAll emptyRelStore rs (a, b)).isSome → a < b) ∧
      (∀ a b : String,
        ¬ ((upsertAll emptyRelStore rs (a, b)).isSome ∧
          (upsertAll emptyRelStore rs (b, a)).isSome))) := by
  refine ⟨?_, ?_, ?_⟩
  · intro keyA keyB parsed pA pB h
    exact canonicalPair_lt keyA keyB h
  · intro store rs
    funext k
    cases h : lastKeyedFrom none rs k with
    | some r =>
      rw [upsertAll_apply, upsertAll_apply, h]
    | none =>
      rw [upsertAll_apply rs (upsertAll store rs) k, h]
  · intro rs hord
    have hkey : ∀ a b : String, (upsertAll emptyRelStore rs (a, b)).isSome → a < b := by
      intro a b hsome
      rw [upsertAll_apply] at hsome
      cases h : lastKeyedFrom none rs (a, b) with
      | none => rw [h] at hsome; simp [emptyRelStore] at hsome
      | some r =>
        rcases lastKeyedFrom_none_spec rs none (a, b) r h with ⟨hk, hmem⟩ | hacc
        · have hlt := hord r hmem
          rw [Prod.mk.injEq] at hk
          rw [hk.1, hk.2] at hlt
          exact hlt
        · simp at hacc
    refine ⟨hkey, ?_⟩
    intro a b ⟨h1, h2⟩
    exact absurd (hkey b a h2) (lt_asymm (hkey a b h1))

/-- Witness for C8: a pair handed to the classifier in reverse alphabetical
order is stored with its keys strictly sorted. -/
theorem classifier_canonical_and_idempotent_witness :
    (classifyPairPost "m_b" "m_a"
        ⟨"correlated", 1 / 2, "j", none, none, none, none⟩ none none).market_key_a <
      (classifyPairPost "m_b" "m_a"
        ⟨"correlated", 1 / 2, "j", none, none, none, none⟩ none none).market_key_b :=
  classifier_canonical_and_idempotent.1 "m_b" "m_a"
    ⟨"correlated", 1 / 2, "j", none, none, none, none⟩ none none (by decide)

/-!
## Claim C5: traversal invariants
-/

/-- `c` is the (defaulted) confidence of an edge of the graph that joins the
nodes `a` and `b`, in either orientation. -/
def EdgeStep (rels : List GraphEdge) (a b : String) (c : ℚ) : Prop :=
  ∃ r ∈ rels, c = r.confidence_score.getD (1 / 2) ∧
    ((r.market_key_a = a ∧ r.market_key_b = b) ∨
      (r.market_key_b = a ∧ r.market_key_a = b))

/-- `chainOk rels path cs`: `cs` lists, hop by hop, the defaulted confidence
of an edge of `rels` joining each pair of consecutive nodes of `path`
(so `cs` has exactly one entry per hop of `path`). -/
def chainOk (rels : List GraphEdge) : List String → List ℚ → Prop
  | [], cs => cs = []
  | [_], cs => cs = []
  | _ :: _ :: _, [] => False
  | a :: b :: rest, c :: cs => EdgeStep rels a b c ∧ chainOk rels (b :: rest) cs

theorem chainOk_cons_cons (rels : List GraphEdge) (a b : String) (rest : List String)
    (c : ℚ) (cs : List ℚ) :
    chainOk rels (a :: b :: rest) (c :: cs) ↔
      EdgeStep rels a b c ∧ chainOk rels (b :: rest) cs := Iff.rfl

theorem chainOk_snoc (rels : List GraphEdge) :
    ∀ (path : List String) (cs : List ℚ) (a nb : String) (c : ℚ),
      chainOk rels path cs → path.getLast? = some a → EdgeStep rels a nb c →
      chainOk rels (path ++ [nb]) (cs ++ [c]) := by
  intro path
  induction path with
  | nil =>
    intro cs a nb c hch hlast hstep
    simp at hlast
  | cons x rest ih =>
    intro cs a nb c hch hlast hstep
    cases rest with
    | nil =>
      have hcs : cs = [] := hch
      subst hcs
      have hxa : x = a := by simpa using hlast
      subst hxa
      exact ⟨hstep, rfl⟩
    | cons y rest' =>
      cases cs with
      | nil => exact absurd hch (by simp [chainOk])
      | cons c0 cs' =>
        obtain ⟨hs, hch'⟩ := (chainOk_cons_cons rels x y rest' c0 cs').1 hch
        have hlast' : (y :: rest').getLast? = some a := by
          rw [List.getLast?_cons_cons] at hlast
          exact hlast
        exact ⟨hs, ih cs' a nb c hch' hlast' hstep⟩

/-- The cumulative-confidence bookkeeping of a queue entry: its
`pathConfidence` is the step-wise rounded product of the confidences of the
edges along its path, and its `marketKey` is the last node of that path. -/
def EntryOk (rels : List GraphEdge) (e : QEntry) : Prop :=
  ∃ cs : List ℚ, cs.length + 1 = e.path.length ∧
    e.pathConfidence = roundedProd cs ∧ chainOk rels e.path cs ∧
    e.path.getLast? = some e.marketKey

/-- The per-impact contract: bounded order, pruning bound respected, and the
cumulative confidence is the step-wise rounded product of the confidences of
the edges along the recorded path. -/
def ImpactOk (rels : List GraphEdge) (imp : Impact) : Prop :=
  imp.order ≤ MAX_DEPTH ∧ MIN_PATH_CONF ≤ imp.confidence_score ∧
  ∃ cs : List ℚ, cs.length + 1 = imp.path.length ∧
    imp.confidence_score = roundedProd cs ∧ chainOk rels imp.path cs

theorem roundedProd_append (cs : List ℚ) (c : ℚ) :
    roundedProd (cs ++ [c]) = round4 (roundedProd cs * c) := by
  simp [roundedProd, List.foldl_append]

theorem processEdges_cons (e : QEntry) (rel : GraphEdge) (es : List GraphEdge)
    (visited : List String) (impacts : List Impact) (nq : List QEntry) :
    processEdges e (rel :: es) visited impacts nq =
      (let neighbor := if rel.market_key_a = e.marketKey then rel.market_key_b
        else rel.market_key_a
      if neighbor ∈ visited then processEdges e es visited impacts nq
      else
        let visited1 := visited ++ [neighbor]
        let edgeConfidence := rel.confidence_score.getD (1 / 2)
        let newPathConf := round4 (e.pathConfidence * edgeConfidence)
        if newPathConf < MIN_PATH_CONF then processEdges e es visited1 impacts nq
        else
          let newDir := propagateDirection e.direction rel.relationship_type
            rel.impact_direction
          let newPath := e.path ++ [neighbor]
          processEdges e es visited1
            (impacts ++ [⟨neighbor, e.depth + 1, rel.relationship_type, newDir,
              newPathConf, edgeConfidence, newPath⟩])
            (nq ++ [⟨neighbor, newDir, e.depth + 1, newPath, newPathConf⟩])) := rfl

theorem processEdges_invariant (rels : List GraphEdge) (e : QEntry)
    (hE : EntryOk rels e) (hD : e.depth < MAX_DEPTH) :
    ∀ (edges : List GraphEdge) (visited : List String) (impacts : List Impact)
      (nq : List QEntry),
      (∀ r ∈ edges, r ∈ rels) →
      (∀ r ∈ edges, r.market_key_a = e.marketKey ∨ r.market_key_b = e.marketKey) →
      (∀ imp ∈ impacts, ImpactOk rels imp) →
      (impacts.map Impact.market_key).Nodup →
      (∀ imp ∈ impacts, imp.market_key ∈ visited) →
      (∀ q ∈ nq, EntryOk rels q) →
      ((∀ imp ∈ (processEdges e edges visited impacts nq).2.1, ImpactOk rels imp) ∧
        ((processEdges e edges visited impacts nq).2.1.map Impact.market_key).Nodup ∧
        (∀ imp ∈ (processEdges e edges visited impacts nq).2.1,
          imp.market_key ∈ (processEdges e edges visited impacts nq).1) ∧
        (∀ q ∈ (processEdges e edges visited impacts nq).2.2, EntryOk rels q) ∧
        (∀ s ∈ visited, s ∈ (processEdges e edges visited impacts nq).1)) := by
  intro edges
  induction edges with
  | nil =>
    intro visited impacts nq hsub hconn hok hnd hvis hnq
    exact ⟨hok, hnd, hvis, hnq, fun s hs => hs⟩
  | cons rel es ih =>
    intro visited impacts nq hsub hconn hok hnd hvis hnq
    have hrel : rel ∈ rels := hsub rel (List.mem_cons_self rel es)
    have hrelc : rel.market_key_a = e.marketKey ∨ rel.market_key_b = e.marketKey :=
      hconn rel (List.mem_cons_self rel es)
    have hsub' : ∀ r ∈ es, r ∈ rels := fun r hr => hsub r (List.mem_cons_of_mem rel hr)
    have hconn' : ∀ r ∈ es, r.market_key_a = e.marketKey ∨ r.market_key_b = e.marketKey :=
      fun r hr => hconn r (List.mem_cons_of_mem rel hr)
    rw [processEdges_cons]
    dsimp only
    by_cases hmem : (if rel.market_key_a = e.marketKey then rel.market_key_b
        else rel.market_key_a) ∈ visited
    · rw [if_pos hmem]
      exact ih visited impacts nq hsub' hconn' hok hnd hvis hnq
    · rw [if_neg hmem]
      by_cases hprune :
          round4 (e.pathConfidence * rel.confidence_score.getD (1 / 2)) < MIN_PATH_CONF
      · rw [if_pos hprune]
        obtain ⟨H1, H2, H3, H4, H5⟩ := ih _ impacts nq hsub' hconn' hok hnd
          (fun imp hi => List.mem_append_left _ (hvis imp hi)) hnq
        exact ⟨H1, H2, H3, H4, fun s hs => H5 s (List.mem_append_left _ hs)⟩
      · rw [if_neg hprune]
        set nb := (if rel.market_key_a = e.marketKey then rel.market_key_b
          else rel.market_key_a) with hnb
        obtain ⟨cs, hlen, hconf, hchain, hlastp⟩ := hE
        have hstep : EdgeStep rels e.marketKey nb (rel.confidence_score.getD (1 / 2)) := by
          by_cases hab : rel.market_key_a = e.marketKey
          · refine ⟨rel, hrel, rfl, Or.inl ⟨hab, ?_⟩⟩
            rw [hnb, if_pos hab]
          · rcases hrelc with h | h
            · exact absurd h hab
            · refine ⟨rel, hrel, rfl, Or.inr ⟨h, ?_⟩⟩
              rw [hnb, if_neg hab]
        have hchain' : chainOk rels (e.path ++ [nb])
            (cs ++ [rel.confidence_score.getD (1 / 2)]) :=
          chainOk_snoc rels e.path cs e.marketKey nb _ hchain hlastp hstep
        have hlast' : (e.path ++ [nb]).getLast? = some nb := by
          simp
        have hlen' : (cs ++ [rel.confidence_score.getD (1 / 2)]).length + 1 =
            (e.path ++ [nb]).length := by
          simp only [List.length_append, List.length_singleton]
          omega
        have hconf' : round4 (e.pathConfidence * rel.confidence_score.getD (1 / 2)) =
            roundedProd (cs ++ [rel.confidence_score.getD (1 / 2)]) := by
          rw [roundedProd_append, ← hconf]
        have hres := ih (visited ++ [nb])
          (impacts ++ [⟨nb, e.depth + 1, rel.relationship_type,
            propagateDirection e.direction rel.relationship_type rel.impact_direction,
            round4 (e.pathConfidence * rel.confidence_score.getD (1 / 2)),
            rel.confidence_score.getD (1 / 2), e.path ++ [nb]⟩])
          (nq ++ [⟨nb,
            propagateDirection e.direction rel.relationship_type rel.impact_direction,
            e.depth + 1, e.path ++ [nb],
            round4 (e.pathConfidence * rel.confidence_score.getD (1 / 2))⟩])
          hsub' hconn' ?_ ?_ ?_ ?_
        · exact ⟨hres.1, hres.2.1, hres.2.2.1, hres.2.2.2.1,
            fun s hs => hres.2.2.2.2 s (List.mem_append_left _ hs)⟩
        · intro imp hi
          rcases List.mem_append.1 hi with h | h
          · exact hok imp h
          · simp only [List.mem_singleton] at h
            subst h
            exact ⟨by simp only; omega, le_of_not_lt hprune,
              cs ++ [rel.confidence_score.getD (1 / 2)], hlen', hconf', hchain'⟩
        · rw [List.map_append]
          rw [List.nodup_append]
          refine ⟨hnd, List.nodup_singleton _, ?_⟩
          intro k hk hk2
          simp only [List.map_cons, List.map_nil, List.mem_singleton] at hk2
          subst hk2
          rcases List.mem_map.1 hk with ⟨imp, hi, hkey⟩
          exact hmem (hkey ▸ hvis imp hi)
        · intro imp hi
          rcases List.mem_append.1 hi with h | h
          · exact List.mem_append_left _ (hvis imp h)
          · simp only [List.mem_singleton] at h
            subst h
            exact List.mem_append_right _ (List.mem_singleton.2 rfl)
        · intro q hq
          rcases List.mem_append.1 hq with h | h
          · exact hnq q h
          · simp only [List.mem_singleton] at h
            subst h
            exact ⟨cs ++ [rel.confidence_score.getD (1 / 2)], hlen', hconf', hchain', hlast'⟩

theorem traverseAux_invariant (rels : List GraphEdge) :
    ∀ (fuel : ℕ) (queue : List QEntry) (visited : List String) (impacts : List Impact),
      (∀ q ∈ queue, EntryOk rels q) →
      (∀ imp ∈ impacts, ImpactOk rels imp) →
      (impacts.map Impact.market_key).Nodup →
      (∀ imp ∈ impacts, imp.market_key ∈ visited) →
      ((∀ imp ∈ traverseAux rels fuel queue visited impacts, ImpactOk rels imp) ∧
        ((traverseAux rels fuel queue visited impacts).map Impact.market_key).Nodup) := by
  intro fuel
  induction fuel with
  | zero =>
    intro queue visited impacts hq hok hnd hvis
    exact ⟨hok, hnd⟩
  | succ fuel ih =>
    intro queue visited impacts hq hok hnd hvis
    cases queue with
    | nil => exact ⟨hok, hnd⟩
    | cons e rest =>
      by_cases hd : MAX_DEPTH ≤ e.depth
      · have hstep : traverseAux rels (fuel + 1) (e :: rest) visited impacts =
            traverseAux rels fuel rest visited impacts := by
          show (if MAX_DEPTH ≤ e.depth then traverseAux rels fuel rest visited impacts
            else _) = _
          rw [if_pos hd]
        rw [hstep]
        exact ih rest visited impacts
          (fun q hq' => hq q (List.mem_cons_of_mem e hq')) hok hnd hvis
      · have hd' : e.depth < MAX_DEPTH := lt_of_not_le hd
        have hstep : traverseAux rels (fuel + 1) (e :: rest) visited impacts =
            traverseAux rels fuel
              (rest ++ (processEdges e
                (rels.filter (fun r => r.market_key_a = e.marketKey ∨
                  r.market_key_b = e.marketKey)) visited impacts []).2.2)
              (processEdges e
                (rels.filter (fun r => r.market_key_a = e.marketKey ∨
                  r.market_key_b = e.marketKey)) visited impacts []).1
              (processEdges e
                (rels.filter (fun r => r.market_key_a = e.marketKey ∨
                  r.market_key_b = e.marketKey)) visited impacts []).2.1 := by
          show (if MAX_DEPTH ≤ e.depth then traverseAux rels fuel rest visited impacts
            else _) = _
          rw [if_neg hd]
        rw [hstep]
        have hEok : EntryOk rels e := hq e (List.mem_cons_self e rest)
        have hconn : ∀ r ∈ rels.filter (fun r => r.market_key_a = e.marketKey ∨
            r.market_key_b = e.marketKey),
            r.market_key_a = e.marketKey ∨ r.market_key_b = e.marketKey := by
          intro r hr
          have hr2 := (List.mem_filter.1 hr).2
          simpa using hr2
        obtain ⟨H1, H2, H3, H4, H5⟩ := processEdges_invariant rels e hEok hd'
          (rels.filter (fun r => r.market_key_a = e.marketKey ∨
            r.market_key_b = e.marketKey)) visited impacts []
          (fun r hr => List.mem_of_mem_filter hr) hconn hok hnd hvis
          (fun q hq' => absurd hq' (List.not_mem_nil q))
        refine ih _ _ _ ?_ H1 H2 H3
        intro q hq'
        rcases List.mem_append.1 hq' with h | h
        · exact hq q (List.mem_cons_of_mem e h)
        · exact H4 q h

/-- C5 (amended).  The traversal emits each `market_key` at most once, never
records an impact whose propagation order exceeds `MAX_DEPTH` (2), and every
emitted impact's cumulative confidence is at least `MIN_PATH_CONF` (0.05)
and equals the product of the confidences of the edges along its path —
`chainOk` ties the i-th factor to an edge of the graph joining the i-th and
(i+1)-th nodes of the impact's path — computed with four-decimal rounding
after each multiplication. -/
theorem scenario_traversal_contract :
    ∀ (t : String) (d : Dir) (rels : List GraphEdge),
      ((traverseGraph t d rels).map Impact.market_key).Nodup ∧
      (∀ imp ∈ traverseGraph t d rels,
        imp.order ≤ MAX_DEPTH ∧ MIN_PATH_CONF ≤ imp.confidence_score ∧
        ∃ cs : List ℚ, cs.length + 1 = imp.path.length ∧
          imp.confidence_score = roundedProd cs ∧ chainOk rels imp.path cs) := by
  intro t d rels
  have h0 : ∀ q ∈ [(⟨t, d, 0, [t], 1⟩ : QEntry)], EntryOk rels q := by
    intro q hq'
    simp only [List.mem_singleton] at hq'
    subst hq'
    exact ⟨[], by simp, rfl, rfl, by simp⟩
  obtain ⟨H1, H2⟩ := traverseAux_invariant rels (2 * rels.length + 2)
    [⟨t, d, 0, [t], 1⟩] [t] [] h0 (by simp) (by simp) (by simp)
  have hperm := List.perm_insertionSort
    (fun a b : Impact => b.confidence_score ≤ a.confidence_score)
    (traverseAux rels (2 * rels.length + 2) [⟨t, d, 0, [t], 1⟩] [t] [])
  have hgraph : traverseGraph t d rels =
      (traverseAux rels (2 * rels.length + 2) [⟨t, d, 0, [t], 1⟩] [t] []).insertionSort
        (fun a b => b.confidence_score ≤ a.confidence_score) := rfl
  constructor
  · rw [hgraph]
    exact (List.Perm.nodup_iff (hperm.map Impact.market_key)).2 H2
  · intro imp himp
    rw [hgraph] at himp
    have himp2 := hperm.mem_iff.1 himp
    exact H1 imp himp2

/-- A single equivalent edge whose confidence has more than four decimal
places, exhibiting the per-step rounding of the traversal. -/
def cexEdge : GraphEdge :=
  { market_key_a := "T", market_key_b := "A", relationship_type := "equivalent",
    confidence_score := some (7011 / 125000), impact_direction := "Positive" }

/-- Counterexample for C5 as stated: over the single edge `T — A` with
confidence 0.056088, the traversal emits the impact for `A` with cumulative
confidence 0.0561 (the product rounded to four decimals at the propagation
step), which differs from the exact product `1 × 0.056088` of the edge
confidence scores along the path. -/
theorem scenario_traversal_counterexample :
    (traverseGraph "T" Dir.up [cexEdge]).map
        (fun imp => (imp.market_key, imp.confidence_score, imp.edge_confidence, imp.path)) =
      [("A", 561 / 10000, 7011 / 125000, ["T", "A"])] ∧
    (561 / 10000 : ℚ) ≠ 1 * (7011 / 125000) := by
  constructor
  · norm_num [traverseGraph, traverseAux, processEdges, cexEdge, round4, jsRound,
      MAX_DEPTH, MIN_PATH_CONF, propagateDirection, flipDir,
      List.insertionSort, List.orderedInsert, List.filter]
  · norm_num

/-- Witness for C5 (amended): the contract instantiated at the concrete
impact emitted for `A` in the one-edge graph. -/
theorem scenario_traversal_contract_witness :
    (⟨"A", 1, "equivalent", Dir.up, 561 / 10000, 7011 / 125000,
        ["T", "A"]⟩ : Impact).order ≤ MAX_DEPTH ∧
    MIN_PATH_CONF ≤ (⟨"A", 1, "equivalent", Dir.up, 561 / 10000, 7011 / 125000,
        ["T", "A"]⟩ : Impact).confidence_score ∧
    ∃ cs : List ℚ,
      cs.length + 1 = (⟨"A", 1, "equivalent", Dir.up, 561 / 10000, 7011 / 125000,
        ["T", "A"]⟩ : Impact).path.length ∧
      (⟨"A", 1, "equivalent", Dir.up, 561 / 10000, 7011 / 125000,
        ["T", "A"]⟩ : Impact).confidence_score = roundedProd cs ∧
      chainOk [cexEdge] (⟨"A", 1, "equivalent", Dir.up, 561 / 10000, 7011 / 125000,
        ["T", "A"]⟩ : Impact).path cs :=
  (scenario_traversal_contract "T" Dir.up [cexEdge]).2
    ⟨"A", 1, "equivalent", Dir.up, 561 / 10000, 7011 / 125000, ["T", "A"]⟩
    (by norm_num [traverseGraph, traverseAux, processEdges, cexEdge, round4, jsRound,
      MAX_DEPTH, MIN_PATH_CONF, propagateDirection, flipDir,
      List.insertionSort, List.orderedInsert, List.filter])

end PredictionMarkets
